import Mathlib

/-!
Shallow embedding of the pose-estimator animal-model core
(`src/animal_models/skeleton.py` and `src/animal_models/motion.py`).

Numeric values are modelled exactly over a linear ordered field `α`
(instantiated with `ℚ` for executable witnesses and with `ℝ` where real
trigonometry is needed).  The trigonometric primitives `np.cos`, `np.sin`
and the constant `np.pi` used by the source are abstracted into a `Trig`
record so that every definition stays computable; theorems are stated for
an arbitrary `Trig` interpretation unless they genuinely depend on real
trigonometry.
-/

namespace PoseEst

/-- Abstraction of the numeric trigonometry primitives (`np.cos`, `np.sin`,
`np.pi`) used by the source. -/
structure Trig (α : Type) where
  cos : α → α
  sin : α → α
  pi : α

/-- A 3-vector, mirroring the `np.ndarray` of shape (3,) used throughout. -/
structure Vec3 (α : Type) where
  x : α
  y : α
  z : α
deriving DecidableEq

/-- A 3x3 matrix, mirroring the `np.ndarray` of shape (3,3). -/
structure Mat3 (α : Type) where
  a00 : α
  a01 : α
  a02 : α
  a10 : α
  a11 : α
  a12 : α
  a20 : α
  a21 : α
  a22 : α
deriving DecidableEq

variable {α : Type} [LinearOrderedField α]

/-- The zero vector (`np.zeros(3)`). -/
def vzero : Vec3 α := ⟨0, 0, 0⟩

/-- Componentwise vector addition. -/
def vadd (a b : Vec3 α) : Vec3 α := ⟨a.x + b.x, a.y + b.y, a.z + b.z⟩

/-- Componentwise `rot_a * (1 - t) + rot_b * t` (the linear interpolation of
per-joint rotation vectors in `get_rotations_at_time`). -/
def vlerp (a b : Vec3 α) (t : α) : Vec3 α :=
  ⟨a.x * (1 - t) + b.x * t, a.y * (1 - t) + b.y * t, a.z * (1 - t) + b.z * t⟩

/-- Matrix-vector product (`m @ v`). -/
def matVec (m : Mat3 α) (v : Vec3 α) : Vec3 α :=
  ⟨m.a00 * v.x + m.a01 * v.y + m.a02 * v.z,
   m.a10 * v.x + m.a11 * v.y + m.a12 * v.z,
   m.a20 * v.x + m.a21 * v.y + m.a22 * v.z⟩

/-- Matrix-matrix product (`m @ n`). -/
def matMul (m n : Mat3 α) : Mat3 α :=
  ⟨m.a00 * n.a00 + m.a01 * n.a10 + m.a02 * n.a20,
   m.a00 * n.a01 + m.a01 * n.a11 + m.a02 * n.a21,
   m.a00 * n.a02 + m.a01 * n.a12 + m.a02 * n.a22,
   m.a10 * n.a00 + m.a11 * n.a10 + m.a12 * n.a20,
   m.a10 * n.a01 + m.a11 * n.a11 + m.a12 * n.a21,
   m.a10 * n.a02 + m.a11 * n.a12 + m.a12 * n.a22,
   m.a20 * n.a00 + m.a21 * n.a10 + m.a22 * n.a20,
   m.a20 * n.a01 + m.a21 * n.a11 + m.a22 * n.a21,
   m.a20 * n.a02 + m.a21 * n.a12 + m.a22 * n.a22⟩

/-- The identity matrix (`np.eye(3)`), the initial cached world rotation of a
joint. -/
def matId : Mat3 α := ⟨1, 0, 0, 0, 1, 0, 0, 0, 1⟩

/-- Model of `rotation_matrix_x` from skeleton.py. -/
def rotation_matrix_x (tr : Trig α) (angle : α) : Mat3 α :=
  let c := tr.cos angle
  let s := tr.sin angle
  ⟨1, 0, 0,
   0, c, -s,
   0, s, c⟩

/-- Model of `rotation_matrix_y` from skeleton.py. -/
def rotation_matrix_y (tr : Trig α) (angle : α) : Mat3 α :=
  let c := tr.cos angle
  let s := tr.sin angle
  ⟨c, 0, s,
   0, 1, 0,
   -s, 0, c⟩

/-- Model of `rotation_matrix_z` from skeleton.py. -/
def rotation_matrix_z (tr : Trig α) (angle : α) : Mat3 α :=
  let c := tr.cos angle
  let s := tr.sin angle
  ⟨c, -s, 0,
   s, c, 0,
   0, 0, 1⟩

/-- Model of `euler_to_rotation_matrix` from skeleton.py: `rz @ ry @ rx`
(Python `@` is left-associative). -/
def euler_to_rotation_matrix (tr : Trig α) (euler : Vec3 α) : Mat3 α :=
  matMul (matMul (rotation_matrix_z tr euler.z) (rotation_matrix_y tr euler.y))
    (rotation_matrix_x tr euler.x)

/-- The `JointType` enumeration from skeleton.py (28 values). -/
inductive JointType where
  | ROOT
  | SPINE_LOWER
  | SPINE_MID
  | SPINE_UPPER
  | NECK
  | HEAD
  | NOSE
  | LEFT_EAR
  | RIGHT_EAR
  | LEFT_EYE
  | RIGHT_EYE
  | TAIL_BASE
  | TAIL_MID
  | TAIL_TIP
  | LEFT_SHOULDER
  | LEFT_FRONT_UPPER
  | LEFT_FRONT_LOWER
  | LEFT_FRONT_PAW
  | RIGHT_SHOULDER
  | RIGHT_FRONT_UPPER
  | RIGHT_FRONT_LOWER
  | RIGHT_FRONT_PAW
  | LEFT_HIP
  | LEFT_BACK_UPPER
  | LEFT_BACK_LOWER
  | LEFT_BACK_PAW
  | RIGHT_HIP
  | RIGHT_BACK_UPPER
  | RIGHT_BACK_LOWER
  | RIGHT_BACK_PAW
deriving DecidableEq

/-- The fixed `BONES` list of `QuadrupedSkeleton` (29 joint-type pairs). -/
def BONES : List (JointType × JointType) :=
  [(JointType.ROOT, JointType.SPINE_LOWER),
   (JointType.SPINE_LOWER, JointType.SPINE_MID),
   (JointType.SPINE_MID, JointType.SPINE_UPPER),
   (JointType.SPINE_UPPER, JointType.NECK),
   (JointType.NECK, JointType.HEAD),
   (JointType.HEAD, JointType.NOSE),
   (JointType.HEAD, JointType.LEFT_EAR),
   (JointType.HEAD, JointType.RIGHT_EAR),
   (JointType.HEAD, JointType.LEFT_EYE),
   (JointType.HEAD, JointType.RIGHT_EYE),
   (JointType.ROOT, JointType.TAIL_BASE),
   (JointType.TAIL_BASE, JointType.TAIL_MID),
   (JointType.TAIL_MID, JointType.TAIL_TIP),
   (JointType.SPINE_UPPER, JointType.LEFT_SHOULDER),
   (JointType.LEFT_SHOULDER, JointType.LEFT_FRONT_UPPER),
   (JointType.LEFT_FRONT_UPPER, JointType.LEFT_FRONT_LOWER),
   (JointType.LEFT_FRONT_LOWER, JointType.LEFT_FRONT_PAW),
   (JointType.SPINE_UPPER, JointType.RIGHT_SHOULDER),
   (JointType.RIGHT_SHOULDER, JointType.RIGHT_FRONT_UPPER),
   (JointType.RIGHT_FRONT_UPPER, JointType.RIGHT_FRONT_LOWER),
   (JointType.RIGHT_FRONT_LOWER, JointType.RIGHT_FRONT_PAW),
   (JointType.ROOT, JointType.LEFT_HIP),
   (JointType.LEFT_HIP, JointType.LEFT_BACK_UPPER),
   (JointType.LEFT_BACK_UPPER, JointType.LEFT_BACK_LOWER),
   (JointType.LEFT_BACK_LOWER, JointType.LEFT_BACK_PAW),
   (JointType.ROOT, JointType.RIGHT_HIP),
   (JointType.RIGHT_HIP, JointType.RIGHT_BACK_UPPER),
   (JointType.RIGHT_BACK_UPPER, JointType.RIGHT_BACK_LOWER),
   (JointType.RIGHT_BACK_LOWER, JointType.RIGHT_BACK_PAW)]

/-- A joint node of the skeleton hierarchy (`Joint` dataclass):
joint type, local offset, mutable Euler rotation, the cached
`_world_position` and `_world_rotation_matrix`, and the list of children.
The Python `parent` back-reference is traversal bookkeeping only and is
represented implicitly by the tree structure. -/
inductive Joint (α : Type) where
  | mk : JointType → Vec3 α → Vec3 α → Vec3 α → Mat3 α → List (Joint α) → Joint α

/-- The joint's type tag. -/
def Joint.joint_type : Joint α → JointType
  | .mk jt _ _ _ _ _ => jt

/-- The joint's local offset from its parent. -/
def Joint.local_offset : Joint α → Vec3 α
  | .mk _ off _ _ _ _ => off

/-- The joint's current Euler rotation. -/
def Joint.rotation : Joint α → Vec3 α
  | .mk _ _ rot _ _ _ => rot

/-- The joint's cached world position. -/
def Joint.world_position : Joint α → Vec3 α
  | .mk _ _ _ wp _ _ => wp

/-- The joint's cached world rotation matrix. -/
def Joint.world_rotation_matrix : Joint α → Mat3 α
  | .mk _ _ _ _ wr _ => wr

/-- The joint's children. -/
def Joint.children : Joint α → List (Joint α)
  | .mk _ _ _ _ _ cs => cs

mutual

/-- Model of `_update_joint_recursive` from skeleton.py: sets this joint's world
position to `parent_world_pos + parent_world_rot @ local_offset`, its world
rotation matrix to `parent_world_rot @ euler_to_rotation_matrix(rotation)`,
then recurses into the children with this joint's new world transform. -/
def update_joint_recursive (tr : Trig α) :
    Joint α → Vec3 α → Mat3 α → Joint α
  | .mk jt off rot _ _ cs, ppos, prot =>
    let wpos := vadd ppos (matVec prot off)
    let wrot := matMul prot (euler_to_rotation_matrix tr rot)
    .mk jt off rot wpos wrot (update_children tr cs wpos wrot)

/-- The `for child in joint.children` loop of `_update_joint_recursive`. -/
def update_children (tr : Trig α) :
    List (Joint α) → Vec3 α → Mat3 α → List (Joint α)
  | [], _, _ => []
  | c :: cs, ppos, prot =>
    update_joint_recursive tr c ppos prot :: update_children tr cs ppos prot

end

mutual

/-- All joints of a subtree in depth-first order.  The Python class keeps a
`joints` dict whose values alias exactly the nodes of the tree rooted at
`self.root`; we model that registry as this flattening. -/
def Joint.flatten : Joint α → List (Joint α)
  | .mk jt off rot wp wr cs =>
    .mk jt off rot wp wr cs :: Joint.flattenList cs

/-- Flattening of a forest of sibling subtrees. -/
def Joint.flattenList : List (Joint α) → List (Joint α)
  | [] => []
  | c :: cs => c.flatten ++ Joint.flattenList cs

end

mutual

/-- Overwrite the rotation of the node(s) of the given type
(the Python `self.joints[joint_type].rotation = np.array(rotation)`, which
mutates the aliased tree node; build produces one node per type). -/
def Joint.setRot (jt : JointType) (r : Vec3 α) : Joint α → Joint α
  | .mk t off rot wp wr cs =>
    .mk t off (if t = jt then r else rot) wp wr (Joint.setRotList jt r cs)

/-- Application of `setRot` to a forest of sibling subtrees. -/
def Joint.setRotList (jt : JointType) (r : Vec3 α) :
    List (Joint α) → List (Joint α)
  | [] => []
  | c :: cs => Joint.setRot jt r c :: Joint.setRotList jt r cs

end

/-- The `QuadrupedSkeleton` state: the joint tree (`self.root`, optional as
in the source) and the global position/rotation of the whole skeleton.
The `joints` dict is derived by flattening the tree. -/
structure Skeleton (α : Type) where
  root : Option (Joint α)
  global_position : Vec3 α
  global_rotation : Vec3 α

/-- The skeleton's joint registry (the `self.joints` dict, in tree order). -/
def Skeleton.jointsList (s : Skeleton α) : List (Joint α) :=
  match s.root with
  | none => []
  | some r => r.flatten

/-- Dictionary lookup `self.joints[joint_type]` (`none` when absent). -/
def Skeleton.findJoint (s : Skeleton α) (jt : JointType) : Option (Joint α) :=
  s.jointsList.find? (fun j => decide (j.joint_type = jt))

/-- Model of `update_world_positions` from skeleton.py: forward kinematics from the
root, with the skeleton's global position and Euler rotation acting as the
parent frame of the root; a `None` root is a no-op. -/
def update_world_positions (tr : Trig α) (s : Skeleton α) : Skeleton α :=
  match s.root with
  | none => s
  | some r =>
    { s with
      root := some (update_joint_recursive tr r s.global_position
        (euler_to_rotation_matrix tr s.global_rotation)) }

/-- Model of `set_joint_rotation` from skeleton.py: writes the rotation if the joint
type is present in the registry, silently does nothing otherwise. -/
def set_joint_rotation (s : Skeleton α) (jt : JointType) (r : Vec3 α) :
    Skeleton α :=
  match s.root with
  | none => s
  | some rt => { s with root := some (rt.setRot jt r) }

/-- Model of `get_joint_position` from skeleton.py: returns the cached world position,
or fails (the Python `raise KeyError`, modelled by `none`) when the joint
type is absent. -/
def get_joint_position (s : Skeleton α) (jt : JointType) : Option (Vec3 α) :=
  (s.findJoint jt).map Joint.world_position

/-- Model of `get_all_joint_positions` from skeleton.py: world positions of every
registered joint. -/
def get_all_joint_positions (s : Skeleton α) :
    List (JointType × Vec3 α) :=
  s.jointsList.map (fun j => (j.joint_type, j.world_position))

/-- The per-bone body of the `get_bone_segments` loop: a bone contributes a
segment exactly when both endpoint types are present in the registry
(`if start_type in self.joints and end_type in self.joints`). -/
def bone_segment_for (s : Skeleton α) (ab : JointType × JointType) :
    Option (Vec3 α × Vec3 α) :=
  match s.findJoint ab.1, s.findJoint ab.2 with
  | some ja, some jb => some (ja.world_position, jb.world_position)
  | _, _ => none

/-- The bone-segment extraction loop of `get_bone_segments`, generalized
over the bone list it iterates. -/
def bone_segments_of (s : Skeleton α)
    (bones : List (JointType × JointType)) : List (Vec3 α × Vec3 α) :=
  bones.filterMap (bone_segment_for s)

/-- Model of `get_bone_segments` from skeleton.py: iterates the fixed `BONES` list. -/
def get_bone_segments (s : Skeleton α) : List (Vec3 α × Vec3 α) :=
  bone_segments_of s BONES

/-- The `LoopMode` enumeration from motion.py. -/
inductive LoopMode where
  | ONCE
  | LOOP
  | PING_PONG
deriving DecidableEq

/-- The `EaseType` enumeration from motion.py. -/
inductive EaseType where
  | LINEAR
  | EASE_IN
  | EASE_OUT
  | EASE_IN_OUT
  | BOUNCE
deriving DecidableEq

/-- Model of `ease_linear` from motion.py. -/
def ease_linear (t : α) : α := t

/-- Model of `ease_in` from motion.py. -/
def ease_in (t : α) : α := t * t

/-- Model of `ease_out` from motion.py. -/
def ease_out (t : α) : α := 1 - (1 - t) * (1 - t)

/-- Model of `ease_in_out` from motion.py. -/
def ease_in_out (t : α) : α :=
  if t < 1/2 then 2 * t * t else 1 - (-2 * t + 2) ^ 2 / 2

/-- Model of `ease_bounce` from motion.py (the float literals 0.5, 0.75 and 0.1 are
modelled exactly, and `np.sin`/`np.pi` through the `Trig` record). -/
def ease_bounce (tr : Trig α) (t : α) : α :=
  if t < 1/2 then 2 * t * t
  else if t < 3/4 then 1 + 1/10 * tr.sin ((t - 1/2) * tr.pi * 4)
  else 1

/-- The `EASING_FUNCTIONS` dispatch table (total over `EaseType`, so the
`dict.get(..., ease_linear)` default never fires). -/
def applyEase (tr : Trig α) : EaseType → α → α
  | .LINEAR => ease_linear
  | .EASE_IN => ease_in
  | .EASE_OUT => ease_out
  | .EASE_IN_OUT => ease_in_out
  | .BOUNCE => ease_bounce tr

/-- Python float `%`: `a % d = a - d * floor(a / d)` (result has the sign of
the divisor). -/
def pymod [FloorRing α] (a d : α) : α := a - d * (⌊a / d⌋ : ℤ)

/-- Python `int()` on a float: truncation toward zero. -/
def pyint [FloorRing α] (a : α) : ℤ := if 0 ≤ a then ⌊a⌋ else ⌈a⌉

/-- The `Keyframe` dataclass: a time stamp, a sparse per-joint rotation
dictionary (modelled as an insertion-ordered association list) and the
easing toward the next keyframe. -/
structure Keyframe (α : Type) where
  time : α
  rotations : List (JointType × Vec3 α)
  easing : EaseType
deriving DecidableEq

/-- Dictionary read `rotations.get(joint, np.zeros(3))`. -/
def lookupRot (rots : List (JointType × Vec3 α)) (jt : JointType) : Vec3 α :=
  match rots.find? (fun p => decide (p.1 = jt)) with
  | some p => p.2
  | none => vzero

/-- The `MotionSequence` dataclass. -/
structure MotionSequence (α : Type) where
  name : String
  keyframes : List (Keyframe α)
  loop_mode : LoopMode
  base_pose : Option String
deriving DecidableEq

/-- The `duration` property: `max(kf.time for kf in keyframes)`, `0.0` when
there are no keyframes. -/
def MotionSequence.duration (ms : MotionSequence α) : α :=
  match ms.keyframes with
  | [] => 0
  | k :: ks => ks.foldl (fun m kf => max m kf.time) k.time

/-- Model of `add_keyframe` from motion.py: append, then re-sort by time.  Python's
`list.sort` is stable, and a stable sort by a total preorder is
extensionally unique, so it is modelled by the stable insertion sort. -/
def add_keyframe (ms : MotionSequence α) (kf : Keyframe α) :
    MotionSequence α :=
  { ms with
    keyframes :=
      List.insertionSort (fun a b => a.time ≤ b.time) (ms.keyframes ++ [kf]) }

/-- The time-remapping step of `get_rotations_at_time` (assumes
`duration > 0`, which the caller has checked): `LOOP` wraps with `%`,
`PING_PONG` reverses odd cycles (`int(cycle) % 2 == 1`), `ONCE` clamps with
`min`. -/
def remapTime [FloorRing α] (mode : LoopMode) (time duration : α) : α :=
  match mode with
  | .LOOP => pymod time duration
  | .PING_PONG =>
    if pyint (time / duration) % 2 = 1 then duration - pymod time duration
    else pymod time duration
  | .ONCE => min time duration

/-- The bracketing-scan loop of `get_rotations_at_time`: walks the keyframes
in order, keeping the latest keyframe with `kf.time <= time` as `prev` and
breaking at the first keyframe with `kf.time >= time` as `next`. -/
def scanBracket (kfs : List (Keyframe α)) (time : α)
    (prev next : Keyframe α) : Keyframe α × Keyframe α :=
  match kfs with
  | [] => (prev, next)
  | kf :: rest =>
    let prev' := if kf.time ≤ time then kf else prev
    if kf.time ≥ time then (prev', kf) else scanBracket rest time prev' next

/-- The interpolation tail of `get_rotations_at_time`: equal bracketing
times return `prev`'s rotations, otherwise the local fraction is remapped
through `prev`'s easing and each joint in the union of the two sparse
dictionaries is linearly interpolated (missing entries default to zero).
Python iterates that union as an unordered set; we fix the order
first-keyframe keys followed by new second-keyframe keys. -/
def interpolate (tr : Trig α) (prevKf nextKf : Keyframe α) (time : α) :
    List (JointType × Vec3 α) :=
  if prevKf.time = nextKf.time then prevKf.rotations
  else
    let t := (time - prevKf.time) / (nextKf.time - prevKf.time)
    let t := applyEase tr prevKf.easing t
    let keys := (prevKf.rotations.map Prod.fst ++
      nextKf.rotations.map Prod.fst).dedup
    keys.map (fun j =>
      (j, vlerp (lookupRot prevKf.rotations j) (lookupRot nextKf.rotations j) t))

/-- Model of `get_rotations_at_time` from motion.py: empty sequence yields the empty
dictionary; a non-positive duration returns the first keyframe's rotations
without any interpolation (and without dividing by the duration); otherwise
the query time is remapped per loop mode, bracketed, and interpolated. -/
def get_rotations_at_time [FloorRing α] (tr : Trig α)
    (ms : MotionSequence α) (time : α) : List (JointType × Vec3 α) :=
  match ms.keyframes with
  | [] => []
  | k0 :: rest =>
    let duration := ms.duration
    if duration ≤ 0 then k0.rotations
    else
      let time' := remapTime ms.loop_mode time duration
      let pn := scanBracket (k0 :: rest) time' k0 (rest.getLastD k0)
      interpolate tr pn.1 pn.2 time'

/-- The `MotionPlayer` state from motion.py (the skeleton it drives plus
playback and blend bookkeeping). -/
structure MotionPlayer (α : Type) where
  skeleton : Skeleton α
  current_motion : Option (MotionSequence α)
  current_time : α
  is_playing : Bool
  playback_speed : α
  blend_from : Option (List (JointType × Vec3 α))
  blend_duration : α
  blend_time : α

/-- Model of `MotionPlayer.__init__`. -/
def MotionPlayer.init (s : Skeleton α) : MotionPlayer α :=
  ⟨s, none, 0, false, 1, none, 0, 0⟩

/-- Python truthiness of the `_blend_from` dict: `None` and the empty dict
are falsy. -/
def truthyBlend (o : Option (List (JointType × Vec3 α))) : Bool :=
  match o with
  | some (_ :: _) => true
  | _ => false

/-- The blend-from snapshot taken by `play`: every registered joint's
current rotation. -/
def snapshotRotations (s : Skeleton α) : List (JointType × Vec3 α) :=
  s.jointsList.map (fun j => (j.joint_type, j.rotation))

/-- Model of `MotionPlayer.play` from motion.py: when `blend_duration > 0` and a
current motion object is loaded (Python truthiness of `self.current_motion`,
which is `is not None` for a dataclass), snapshot the skeleton's rotations
and arm the blend timer, else clear the blend-from pose; then install the
new motion, set the time and the playing flag.  The base
`QuadrupedSkeleton` has no `set_pose` attribute, so the
`hasattr(self.skeleton, 'set_pose')` branch is skipped. -/
def MotionPlayer.play (p : MotionPlayer α) (motion : MotionSequence α)
    (blend_duration start_time : α) : MotionPlayer α :=
  let p :=
    if 0 < blend_duration ∧ p.current_motion.isSome then
      { p with
        blend_from := some (snapshotRotations p.skeleton)
        blend_duration := blend_duration
        blend_time := 0 }
    else { p with blend_from := none }
  { p with
    current_motion := some motion
    current_time := start_time
    is_playing := true }

/-- Model of `MotionPlayer.stop` from motion.py: clears only the playing flag. -/
def MotionPlayer.stop (p : MotionPlayer α) : MotionPlayer α :=
  { p with is_playing := false }

/-- Model of `MotionPlayer._apply_current_frame` from motion.py: evaluate the active
sequence at the current time, re-blend toward the snapshot while the blend
window is active, write every resolved rotation into the skeleton and run
one forward-kinematics pass. -/
def MotionPlayer.apply_current_frame [FloorRing α] (tr : Trig α)
    (p : MotionPlayer α) : MotionPlayer α :=
  match p.current_motion with
  | none => p
  | some m =>
    let rotations := get_rotations_at_time tr m p.current_time
    let rotations :=
      if truthyBlend p.blend_from ∧ p.blend_time < p.blend_duration then
        let bt := ease_in_out (p.blend_time / p.blend_duration)
        rotations.map (fun jr =>
          match (p.blend_from.getD []).find? (fun q => decide (q.1 = jr.1)) with
          | some q => (jr.1, vlerp q.2 jr.2 bt)
          | none => jr)
      else rotations
    let skel := rotations.foldl
      (fun s jr => set_joint_rotation s jr.1 jr.2) p.skeleton
    { p with skeleton := update_world_positions tr skel }

/-- Model of `MotionPlayer.update` from motion.py: early-out returning `False` when
stopped or without a motion; otherwise advance time (scaled by the playback
speed), advance the blend clock, stop a finished `ONCE` motion, apply the
frame, and report whether still playing. -/
def MotionPlayer.update [FloorRing α] (tr : Trig α) (p : MotionPlayer α)
    (delta_time : α) : MotionPlayer α × Bool :=
  if p.is_playing = false ∨ p.current_motion.isNone then (p, false)
  else
    let p := { p with
      current_time := p.current_time + delta_time * p.playback_speed }
    let p :=
      if truthyBlend p.blend_from ∧ p.blend_time < p.blend_duration then
        { p with blend_time := p.blend_time + delta_time }
      else p
    let p :=
      match p.current_motion with
      | some m =>
        if m.loop_mode = LoopMode.ONCE ∧ m.duration ≤ p.current_time then
          { p with is_playing := false }
        else p
      | none => p
    let p := p.apply_current_frame tr
    (p, p.is_playing)

/-- Model of `MotionPlayer.set_time` from motion.py: scrub to a time and apply the
frame immediately. -/
def MotionPlayer.set_time [FloorRing α] (tr : Trig α) (p : MotionPlayer α)
    (time : α) : MotionPlayer α :=
  MotionPlayer.apply_current_frame tr { p with current_time := time }

/-- The sampling loop of `generate_motion_frames`: for each time in order,
scrub the player there and snapshot `get_all_joint_positions`. -/
def runFrames [FloorRing α] (tr : Trig α) (p : MotionPlayer α) :
    List α → List (List (JointType × Vec3 α))
  | [] => []
  | t :: ts =>
    let p' := p.set_time tr t
    get_all_joint_positions p'.skeleton :: runFrames tr p' ts

/-- Model of `generate_motion_frames` from motion.py: make a fresh player,
compute `frame_count = int(duration * fps) + 1` (an empty loop when that is
not positive, as with Python `range`), start playback, and sample at times
`i * (1 / fps)`.  The base `QuadrupedSkeleton` has no `set_pose`, so the
`include_base_pose` branch is skipped. -/
def generate_motion_frames [FloorRing α] (tr : Trig α)
    (skeleton : Skeleton α) (motion : MotionSequence α) (fps : α) :
    List (List (JointType × Vec3 α)) :=
  let player := MotionPlayer.init skeleton
  let duration := motion.duration
  let frame_count := (pyint (duration * fps) + 1).toNat
  let delta := 1 / fps
  let player := player.play motion 0 0
  runFrames tr player
    ((List.range frame_count).map (fun i : ℕ => (i : α) * delta))

/-! Concrete sample data used to instantiate the theorems below. -/

/-- A trivial trigonometry interpretation over `ℚ` (the structural theorems
hold for every interpretation, so any concrete one serves for witnesses). -/
def trivTrig : Trig ℚ := ⟨fun _ => 1, fun _ => 0, 0⟩

/-- A sample leaf joint. -/
def sampleChild : Joint ℚ :=
  .mk JointType.SPINE_LOWER ⟨0, 1, 0⟩ ⟨0, 0, 0⟩ ⟨0, 0, 0⟩ matId []

/-- A sample root joint with one child. -/
def sampleRoot : Joint ℚ :=
  .mk JointType.ROOT ⟨0, 0, 1⟩ ⟨0, 0, 0⟩ ⟨0, 0, 0⟩ matId [sampleChild]

/-- A sample two-joint skeleton. -/
def sampleSkeleton : Skeleton ℚ := ⟨some sampleRoot, ⟨0, 0, 0⟩, ⟨0, 0, 0⟩⟩

/-- A keyframe at time 0. -/
def kfZero : Keyframe ℚ := ⟨0, [(JointType.ROOT, ⟨0, 0, 0⟩)], EaseType.LINEAR⟩

/-- A keyframe at time 1 (first-inserted of the tie). -/
def kfOneA : Keyframe ℚ := ⟨1, [(JointType.ROOT, ⟨1, 0, 0⟩)], EaseType.LINEAR⟩

/-- Another keyframe at time 1 (last-inserted of the tie, with different
rotations). -/
def kfOneB : Keyframe ℚ := ⟨1, [(JointType.ROOT, ⟨2, 0, 0⟩)], EaseType.LINEAR⟩

/-- A sequence built via `add_keyframe` with two keyframes sharing time 1:
`kfOneA` inserted first, `kfOneB` inserted last. -/
def seqTie : MotionSequence ℚ :=
  add_keyframe (add_keyframe ⟨"tie", [], LoopMode.ONCE, none⟩ kfOneA) kfOneB

/-- A looping sequence of duration 1. -/
def seqLoop : MotionSequence ℚ := ⟨"loop", [kfZero, kfOneA], LoopMode.LOOP, none⟩

/-- A ping-pong sequence of duration 1. -/
def seqPing : MotionSequence ℚ := ⟨"ping", [kfZero, kfOneA], LoopMode.PING_PONG, none⟩

/-- A play-once sequence of duration 1. -/
def seqOnce : MotionSequence ℚ := ⟨"once", [kfZero, kfOneA], LoopMode.ONCE, none⟩

/-- A sequence whose only keyframe sits at time 0 (duration 0). -/
def seqStatic : MotionSequence ℚ := ⟨"static", [kfZero], LoopMode.LOOP, none⟩

/-- A player that played `seqOnce` and was then stopped: the sequence is
retained, the playing flag is down. -/
def stoppedPlayer : MotionPlayer ℚ :=
  (((MotionPlayer.init sampleSkeleton).play seqOnce 0 0)).stop

/-! Helper lemmas about the joint tree. -/

/-- The child loop of the forward-kinematics pass is a `map`. -/
theorem update_children_eq_map (tr : Trig α) (cs : List (Joint α))
    (ppos : Vec3 α) (prot : Mat3 α) :
    update_children tr cs ppos prot =
      cs.map (fun c => update_joint_recursive tr c ppos prot) := by
  induction cs with
  | nil => rfl
  | cons c cs ih => simp [update_children, ih]

/-- Unfolding lemma for `update_joint_recursive` on a constructor. -/
theorem update_joint_recursive_mk (tr : Trig α) (jt : JointType)
    (off rot wp : Vec3 α) (wr : Mat3 α) (cs : List (Joint α))
    (ppos : Vec3 α) (prot : Mat3 α) :
    update_joint_recursive tr (.mk jt off rot wp wr cs) ppos prot =
      .mk jt off rot (vadd ppos (matVec prot off))
        (matMul prot (euler_to_rotation_matrix tr rot))
        (cs.map (fun c => update_joint_recursive tr c
          (vadd ppos (matVec prot off))
          (matMul prot (euler_to_rotation_matrix tr rot)))) := by
  rw [update_joint_recursive, update_children_eq_map]

/-- Membership in a flattened forest comes from one of its trees. -/
theorem mem_flattenList {p : Joint α} :
    ∀ {cs : List (Joint α)}, p ∈ Joint.flattenList cs →
      ∃ c ∈ cs, p ∈ c.flatten := by
  intro cs
  induction cs with
  | nil => intro hp; cases hp
  | cons c cs ih =>
    intro hp
    rcases List.mem_append.mp hp with hc | htail
    · exact ⟨c, List.mem_cons_self _ _, hc⟩
    · rcases ih htail with ⟨c', hc', hp'⟩
      exact ⟨c', List.mem_cons_of_mem _ hc', hp'⟩

/-- A node of one tree of a forest is in the flattened forest. -/
theorem mem_flattenList_of_mem {p c : Joint α} {cs : List (Joint α)}
    (hc : c ∈ cs) (hp : p ∈ c.flatten) : p ∈ Joint.flattenList cs := by
  induction cs with
  | nil => cases hc
  | cons d cs ih =>
    rcases List.mem_cons.mp hc with hh | ht
    · subst hh
      exact List.mem_append.mpr (Or.inl hp)
    · exact List.mem_append.mpr (Or.inr (ih ht))

/-- Lemma: `setRot` over a forest is a `map`. -/
theorem setRotList_eq_map (jt : JointType) (r : Vec3 α) :
    ∀ cs : List (Joint α),
      Joint.setRotList jt r cs = cs.map (Joint.setRot jt r) := by
  intro cs
  induction cs with
  | nil => rfl
  | cons c cs ih => simp [Joint.setRotList, ih]

/-- Structural induction principle for the nested `Joint` tree. -/
theorem Joint.inductionOn {P : Joint α → Prop}
    (h : ∀ jt off rot wp wr cs,
      (∀ c ∈ cs, P c) → P (Joint.mk jt off rot wp wr cs)) :
    ∀ j : Joint α, P j
  | .mk jt off rot wp wr cs =>
    h jt off rot wp wr cs (fun c hc => Joint.inductionOn h c)
termination_by j => sizeOf j
decreasing_by
  have := List.sizeOf_lt_of_mem hc
  simp only [Joint.mk.sizeOf_spec]
  omega

/-- The world position written by one forward-kinematics step. -/
theorem update_joint_world_position (tr : Trig α) (j : Joint α)
    (ppos : Vec3 α) (prot : Mat3 α) :
    (update_joint_recursive tr j ppos prot).world_position =
      vadd ppos (matVec prot j.local_offset) := by
  cases j with
  | mk jt off rot wp wr cs =>
    rw [update_joint_recursive_mk]
    rfl

/-- The world rotation matrix written by one forward-kinematics step. -/
theorem update_joint_world_rotation (tr : Trig α) (j : Joint α)
    (ppos : Vec3 α) (prot : Mat3 α) :
    (update_joint_recursive tr j ppos prot).world_rotation_matrix =
      matMul prot (euler_to_rotation_matrix tr j.rotation) := by
  cases j with
  | mk jt off rot wp wr cs =>
    rw [update_joint_recursive_mk]
    rfl

/-- Forward kinematics preserves a joint's local offset. -/
theorem update_joint_local_offset (tr : Trig α) (j : Joint α)
    (ppos : Vec3 α) (prot : Mat3 α) :
    (update_joint_recursive tr j ppos prot).local_offset = j.local_offset := by
  cases j with
  | mk jt off rot wp wr cs =>
    rw [update_joint_recursive_mk]
    rfl

/-- Forward kinematics preserves a joint's Euler rotation. -/
theorem update_joint_rotation_field (tr : Trig α) (j : Joint α)
    (ppos : Vec3 α) (prot : Mat3 α) :
    (update_joint_recursive tr j ppos prot).rotation = j.rotation := by
  cases j with
  | mk jt off rot wp wr cs =>
    rw [update_joint_recursive_mk]
    rfl

/-- Applying `setRot` for a joint type that occurs nowhere in the subtree is the
identity. -/
theorem setRot_absent (jt : JointType) (r : Vec3 α) :
    ∀ j : Joint α, (∀ p ∈ j.flatten, p.joint_type ≠ jt) →
      Joint.setRot jt r j = j := by
  intro j
  induction j using Joint.inductionOn with
  | h t off rot wp wr cs ih =>
    intro habs
    rw [Joint.setRot, setRotList_eq_map]
    have hhead : t ≠ jt := by
      have := habs (Joint.mk t off rot wp wr cs)
        (by rw [Joint.flatten]; exact List.mem_cons_self _ _)
      exact this
    rw [if_neg hhead]
    have hcs : cs.map (Joint.setRot jt r) = cs.map id := by
      apply List.map_congr_left
      intro c hc
      refine ih c hc (fun p hp => habs p ?_)
      rw [Joint.flatten]
      exact List.mem_cons_of_mem _ (mem_flattenList_of_mem hc hp)
    rw [hcs, List.map_id]

/-- Every parent/child pair in the tree produced by one recursive
forward-kinematics pass satisfies the world-transform recurrences. -/
theorem fk_children_spec (tr : Trig α) :
    ∀ (j : Joint α) (ppos : Vec3 α) (prot : Mat3 α),
      ∀ p ∈ (update_joint_recursive tr j ppos prot).flatten,
        ∀ c ∈ p.children,
          c.world_position =
            vadd p.world_position (matVec p.world_rotation_matrix c.local_offset) ∧
          c.world_rotation_matrix =
            matMul p.world_rotation_matrix (euler_to_rotation_matrix tr c.rotation) := by
  intro j
  induction j using Joint.inductionOn with
  | h jt off rot wp wr cs ih =>
    intro ppos prot p hp c hc
    rw [update_joint_recursive_mk, Joint.flatten] at hp
    rcases List.mem_cons.mp hp with hphead | hptail
    · subst hphead
      simp only [Joint.children] at hc
      rcases List.mem_map.mp hc with ⟨c0, hc0, hc0eq⟩
      subst hc0eq
      constructor
      · rw [update_joint_world_position, update_joint_local_offset]
        rfl
      · rw [update_joint_world_rotation, update_joint_rotation_field]
        rfl
    · rcases mem_flattenList hptail with ⟨u, hu, hpfl⟩
      rcases List.mem_map.mp hu with ⟨c0, hc0, hc0eq⟩
      subst hc0eq
      exact ih c0 hc0 _ _ p hpfl c hc

/-- C1: after `update_world_positions`, every joint's world position is its
parent's world position plus the parent's world rotation applied to the
joint's local offset; every joint's world rotation matrix is the parent's
world rotation times the joint's own Euler-derived matrix, itself composed
as `Rz * Ry * Rx`; and the skeleton's global position/Euler rotation act as
the parent frame of the root. -/
theorem update_world_positions_fk (tr : Trig α) (s : Skeleton α)
    (r : Joint α) (hr : s.root = some r) :
    (update_world_positions tr s).root =
      some (update_joint_recursive tr r s.global_position
        (euler_to_rotation_matrix tr s.global_rotation)) ∧
    (update_joint_recursive tr r s.global_position
        (euler_to_rotation_matrix tr s.global_rotation)).world_position =
      vadd s.global_position
        (matVec (euler_to_rotation_matrix tr s.global_rotation) r.local_offset) ∧
    (update_joint_recursive tr r s.global_position
        (euler_to_rotation_matrix tr s.global_rotation)).world_rotation_matrix =
      matMul (euler_to_rotation_matrix tr s.global_rotation)
        (euler_to_rotation_matrix tr r.rotation) ∧
    (∀ e : Vec3 α, euler_to_rotation_matrix tr e =
      matMul (matMul (rotation_matrix_z tr e.z) (rotation_matrix_y tr e.y))
        (rotation_matrix_x tr e.x)) ∧
    ∀ p ∈ (update_joint_recursive tr r s.global_position
        (euler_to_rotation_matrix tr s.global_rotation)).flatten,
      ∀ c ∈ p.children,
        c.world_position =
          vadd p.world_position (matVec p.world_rotation_matrix c.local_offset) ∧
        c.world_rotation_matrix =
          matMul p.world_rotation_matrix (euler_to_rotation_matrix tr c.rotation) := by
  refine ⟨?_, update_joint_world_position tr r _ _,
    update_joint_world_rotation tr r _ _, fun e => rfl,
    fk_children_spec tr r _ _⟩
  unfold update_world_positions
  rw [hr]

/-- Witness for C1 at a concrete two-joint skeleton. -/
theorem update_world_positions_fk_witness :
    (update_world_positions trivTrig sampleSkeleton).root =
      some (update_joint_recursive trivTrig sampleRoot
        sampleSkeleton.global_position
        (euler_to_rotation_matrix trivTrig sampleSkeleton.global_rotation)) ∧
    (update_joint_recursive trivTrig sampleRoot
        sampleSkeleton.global_position
        (euler_to_rotation_matrix trivTrig sampleSkeleton.global_rotation)).world_position =
      vadd sampleSkeleton.global_position
        (matVec (euler_to_rotation_matrix trivTrig sampleSkeleton.global_rotation)
          sampleRoot.local_offset) :=
  ⟨(update_world_positions_fk trivTrig sampleSkeleton sampleRoot rfl).1,
   (update_world_positions_fk trivTrig sampleSkeleton sampleRoot rfl).2.1⟩

/-- C7: for a joint type absent from the skeleton's registry,
`get_joint_position` fails (returns `none`, modelling the raised
`KeyError`), `set_joint_rotation` is a silent no-op leaving the whole
skeleton unchanged, and the bone-segment extraction skips every bone with
an absent endpoint (dropping such bones from the iterated list changes
nothing) without failing. -/
theorem absent_joint_behaviour (s : Skeleton α) (jt : JointType) (r : Vec3 α)
    (h : s.findJoint jt = none) :
    get_joint_position s jt = none ∧
    set_joint_rotation s jt r = s ∧
    (∀ bones, bone_segments_of s bones =
      bone_segments_of s (bones.filter
        (fun ab => decide (ab.1 ≠ jt) && decide (ab.2 ≠ jt)))) ∧
    get_bone_segments s =
      bone_segments_of s (BONES.filter
        (fun ab => decide (ab.1 ≠ jt) && decide (ab.2 ≠ jt))) := by
  have habs : ∀ p ∈ s.jointsList, p.joint_type ≠ jt := by
    intro p hp
    have := List.find?_eq_none.mp h p hp
    simpa using this
  have hnone1 : ∀ ab : JointType × JointType, ab.1 = jt →
      bone_segment_for s ab = none := by
    intro ab h1
    unfold bone_segment_for
    rw [h1, h]
  have hnone2 : ∀ ab : JointType × JointType, ab.2 = jt →
      bone_segment_for s ab = none := by
    intro ab h2
    unfold bone_segment_for
    rw [h2, h]
    cases s.findJoint ab.1 <;> rfl
  have hskip : ∀ bones, bone_segments_of s bones =
      bone_segments_of s (bones.filter
        (fun ab => decide (ab.1 ≠ jt) && decide (ab.2 ≠ jt))) := by
    intro bones
    induction bones with
    | nil => rfl
    | cons ab rest ih =>
      simp only [bone_segments_of] at ih ⊢
      rw [List.filter_cons]
      by_cases h1 : ab.1 = jt
      · simp only [List.filterMap_cons, hnone1 ab h1, h1]
        simpa using ih
      · by_cases h2 : ab.2 = jt
        · simp only [List.filterMap_cons, hnone2 ab h2, h2]
          simpa [h1] using ih
        · have hg : (decide (ab.1 ≠ jt) && decide (ab.2 ≠ jt)) = true := by
            simp [h1, h2]
          rw [if_pos hg]
          simp only [List.filterMap_cons]
          cases hF : bone_segment_for s ab <;> rw [ih]
  refine ⟨?_, ?_, hskip, hskip BONES⟩
  · unfold get_joint_position
    rw [h]
    rfl
  · rcases s with ⟨sroot, gp, gr⟩
    unfold set_joint_rotation
    cases sroot with
    | none => rfl
    | some rt =>
      have hset : Joint.setRot jt r rt = rt := by
        apply setRot_absent
        intro p hp
        apply habs
        exact hp
      show (⟨some (Joint.setRot jt r rt), gp, gr⟩ : Skeleton α) = ⟨some rt, gp, gr⟩
      rw [hset]

/-- Witness for C7 at a concrete skeleton lacking the `NOSE` joint. -/
theorem absent_joint_behaviour_witness :
    get_joint_position sampleSkeleton JointType.NOSE = none ∧
    set_joint_rotation sampleSkeleton JointType.NOSE ⟨1, 1, 1⟩ =
      sampleSkeleton :=
  ⟨(absent_joint_behaviour sampleSkeleton JointType.NOSE ⟨1, 1, 1⟩ rfl).1,
   (absent_joint_behaviour sampleSkeleton JointType.NOSE ⟨1, 1, 1⟩ rfl).2.1⟩

/-- C10: a stopped player, or one with no current sequence, is left entirely
unchanged by `update` (time, blend state, the driven skeleton's rotations
and cached world positions included), and `update` returns `False`. -/
theorem update_when_stopped [FloorRing α] (tr : Trig α) (p : MotionPlayer α)
    (dt : α) (h : p.is_playing = false ∨ p.current_motion = none) :
    MotionPlayer.update tr p dt = (p, false) := by
  have hc : p.is_playing = false ∨ (p.current_motion.isNone : Prop) := by
    rcases h with h | h
    · exact Or.inl h
    · exact Or.inr (Option.isNone_iff_eq_none.mpr h)
  unfold MotionPlayer.update
  rw [if_pos hc]

/-- Witness for C10 at a freshly initialized (hence stopped) player. -/
theorem update_when_stopped_witness :
    MotionPlayer.update trivTrig (MotionPlayer.init sampleSkeleton) 1 =
      (MotionPlayer.init sampleSkeleton, false) :=
  update_when_stopped trivTrig (MotionPlayer.init sampleSkeleton) 1 (Or.inl rfl)

/-- Counterexample to C6: after `stop()` the player is not playing, yet a
subsequent `play` with a positive blend duration still arms a blend,
because the source tests `self.current_motion` (still retained after
`stop`) rather than `self.is_playing`. -/
theorem play_after_stop_arms_blend :
    stoppedPlayer.is_playing = false ∧
    (stoppedPlayer.play seqOnce (1/2) 0).blend_from ≠ none := by
  refine ⟨rfl, ?_⟩
  unfold MotionPlayer.play
  split_ifs with h
  · simp
  · exact absurd ⟨by norm_num, rfl⟩ h

/-- C6 (amended): `play` snapshots the skeleton's current rotations and arms
the blend timer if and only if `blendDuration > 0` and a current motion
object is loaded (playing or stopped alike) — not "iff a motion is
currently playing"; in particular, after `stop()` (which retains the
sequence and only lowers the playing flag) a `play` with positive blend
duration does arm a blend. -/
theorem play_blend_arming (p : MotionPlayer α) (m : MotionSequence α)
    (bd st : α) :
    ((p.play m bd st).blend_from =
      if 0 < bd ∧ p.current_motion.isSome then
        some (snapshotRotations p.skeleton)
      else none) ∧
    ((p.play m bd st).blend_duration =
      if 0 < bd ∧ p.current_motion.isSome then bd else p.blend_duration) ∧
    ((p.play m bd st).blend_time =
      if 0 < bd ∧ p.current_motion.isSome then 0 else p.blend_time) ∧
    (p.stop.current_motion = p.current_motion ∧
     p.stop.is_playing = false ∧
     p.stop.current_time = p.current_time) := by
  unfold MotionPlayer.play MotionPlayer.stop
  split_ifs with hcond <;> simp

/-- Auxiliary: the running maximum of keyframe times over all-zero times,
started at zero, is zero. -/
theorem foldl_max_zero :
    ∀ (l : List (Keyframe α)) (b : α), b = 0 →
      (∀ kf ∈ l, kf.time = 0) →
      l.foldl (fun m kf => max m kf.time) b = 0 := by
  intro l
  induction l with
  | nil => intro b hb _; exact hb
  | cons k l ih =>
    intro b hb hl
    have hk : k.time = 0 := hl k (List.mem_cons_self _ _)
    refine ih (max b k.time) ?_ (fun kf hkf => hl kf (List.mem_cons_of_mem _ hkf))
    rw [hb, hk, max_self]

/-- C9: a non-empty sequence whose keyframes all sit at time 0 has duration
0, and `get_rotations_at_time` returns the first keyframe's rotations
directly at every query time in every loop mode, taking the early branch
that never divides by the duration. -/
theorem zero_time_keyframes_eval [FloorRing α] (tr : Trig α)
    (ms : MotionSequence α) (k : Keyframe α) (ks : List (Keyframe α))
    (hk : ms.keyframes = k :: ks) (hz : ∀ kf ∈ ms.keyframes, kf.time = 0)
    (t : α) :
    get_rotations_at_time tr ms t = k.rotations := by
  have hd : ms.duration = 0 := by
    unfold MotionSequence.duration
    rw [hk]
    exact foldl_max_zero ks k.time
      (hz k (by rw [hk]; exact List.mem_cons_self _ _))
      (fun kf hkf => hz kf (by rw [hk]; exact List.mem_cons_of_mem _ hkf))
  rcases ms with ⟨nm, kfs, lm, bp⟩
  simp only [MotionSequence.keyframes] at hk
  subst hk
  simp [get_rotations_at_time, hd]

/-- Witness for C9 at a concrete single-keyframe sequence queried at time 7. -/
theorem zero_time_keyframes_eval_witness :
    get_rotations_at_time trivTrig seqStatic 7 = kfZero.rotations :=
  zero_time_keyframes_eval trivTrig seqStatic kfZero [] rfl (by decide) 7

/-! Arithmetic lemmas about the Python float `%` and `int()` models. -/

/-- Python float modulo is invariant under adding the (positive) divisor. -/
theorem pymod_add_right [FloorRing α] (t d : α) (hd : 0 < d) :
    pymod (t + d) d = pymod t d := by
  unfold pymod
  have hdvd : (t + d) / d = t / d + 1 := by
    field_simp
  rw [hdvd, Int.floor_add_one]
  push_cast
  ring

/-- Python float modulo fixes values already in `[0, d)`. -/
theorem pymod_eq_self [FloorRing α] {t d : α} (h0 : 0 ≤ t) (h1 : t < d) :
    pymod t d = t := by
  have hd : 0 < d := lt_of_le_of_lt h0 h1
  unfold pymod
  have hfloor : ⌊t / d⌋ = 0 := by
    rw [Int.floor_eq_zero_iff]
    constructor
    · exact div_nonneg h0 hd.le
    · rw [div_lt_one hd]
      exact h1
  rw [hfloor]
  push_cast
  ring

/-- Python float modulo of the divisor by itself is zero. -/
theorem pymod_self [FloorRing α] {d : α} (hd : 0 < d) : pymod d d = 0 := by
  unfold pymod
  rw [div_self hd.ne.symm]
  have : ⌊(1 : α)⌋ = 1 := Int.floor_one
  rw [this]
  push_cast
  ring

/-- Python `int()` agrees with the floor on non-negative values. -/
theorem pyint_of_nonneg [FloorRing α] {a : α} (h : 0 ≤ a) : pyint a = ⌊a⌋ := by
  unfold pyint
  rw [if_pos h]

/-- Evaluation depends on the query time only through the loop-mode
remapping. -/
theorem get_rotations_time_congr [FloorRing α] (tr : Trig α)
    (ms : MotionSequence α) (t1 t2 : α)
    (h : remapTime ms.loop_mode t1 ms.duration =
      remapTime ms.loop_mode t2 ms.duration) :
    get_rotations_at_time tr ms t1 = get_rotations_at_time tr ms t2 := by
  unfold get_rotations_at_time
  cases hms : ms.keyframes with
  | nil => rfl
  | cons k0 rest => simp only [h]

/-- C2: for a sequence in `LOOP` mode with positive duration, evaluation is
periodic with period the duration: `EvaluateAt(time + duration)` equals
`EvaluateAt(time)` for every query time. -/
theorem loop_mode_periodic [FloorRing α] (tr : Trig α)
    (ms : MotionSequence α) (t : α) (hm : ms.loop_mode = LoopMode.LOOP)
    (hd : 0 < ms.duration) :
    get_rotations_at_time tr ms (t + ms.duration) =
      get_rotations_at_time tr ms t := by
  refine get_rotations_time_congr tr ms _ _ ?_
  rw [hm]
  simp only [remapTime]
  exact pymod_add_right t ms.duration hd

/-- Witness for C2 at a concrete looping sequence of duration 1. -/
theorem loop_mode_periodic_witness :
    get_rotations_at_time trivTrig seqLoop (1/2 + seqLoop.duration) =
      get_rotations_at_time trivTrig seqLoop (1/2) :=
  loop_mode_periodic trivTrig seqLoop (1/2) rfl (by decide)

/-- The `PING_PONG` remapping of `duration + x` and of `duration - x`
coincide for `0 ≤ x ≤ duration`. -/
theorem pingpong_remap [FloorRing α] {d x : α} (hd : 0 < d) (hx0 : 0 ≤ x)
    (hx1 : x ≤ d) :
    remapTime LoopMode.PING_PONG (d + x) d =
      remapTime LoopMode.PING_PONG (d - x) d := by
  rcases eq_or_lt_of_le hx1 with hxd | hxd
  · -- x = d: both times remap to 0
    subst hxd
    simp only [remapTime]
    have hA : pyint ((x + x) / x) = 2 := by
      have h2 : (x + x) / x = 2 := by
        rw [add_div, div_self (ne_of_gt hd)]
        norm_num
      rw [h2, pyint_of_nonneg (show (0 : α) ≤ 2 by norm_num)]
      norm_num
    have hB : pyint ((x - x) / x) = 0 := by
      have h0 : (x - x) / x = 0 := by simp
      rw [h0, pyint_of_nonneg le_rfl]
      exact Int.floor_zero
    rw [hA, hB]
    rw [if_neg (by decide : ¬((2 : ℤ) % 2 = 1)),
      if_neg (by decide : ¬((0 : ℤ) % 2 = 1))]
    have hmod2 : pymod (x + x) x = 0 := by
      rw [pymod_add_right _ _ hd, pymod_self hd]
    have hmod0 : pymod (x - x) x = 0 := by
      rw [sub_self]
      exact pymod_eq_self le_rfl hd
    rw [hmod2, hmod0]
  · rcases eq_or_lt_of_le hx0 with hx0' | hx0'
    · -- x = 0: both query times are literally the duration
      rw [← hx0', add_zero, sub_zero]
    · -- 0 < x < d: odd backward half-cycle meets the plain forward cycle
      simp only [remapTime]
      have hA : pyint ((d + x) / d) = 1 := by
        have hds : (d + x) / d = x / d + 1 := by
          rw [add_div, div_self (ne_of_gt hd)]
          ring
        rw [hds, pyint_of_nonneg (by positivity), Int.floor_add_one]
        have h0 : ⌊x / d⌋ = 0 := by
          rw [Int.floor_eq_zero_iff]
          exact ⟨div_nonneg hx0 hd.le, by rw [div_lt_one hd]; exact hxd⟩
        rw [h0]
        norm_num
      have hB : pyint ((d - x) / d) = 0 := by
        have hnum : 0 ≤ (d - x) / d := div_nonneg (by linarith) hd.le
        rw [pyint_of_nonneg hnum, Int.floor_eq_zero_iff]
        refine ⟨hnum, ?_⟩
        rw [div_lt_one hd]
        linarith
      rw [hA, hB]
      rw [if_pos (by decide : (1 : ℤ) % 2 = 1),
        if_neg (by decide : ¬((0 : ℤ) % 2 = 1))]
      rw [add_comm d x, pymod_add_right _ _ hd, pymod_eq_self hx0 hxd,
        pymod_eq_self (by linarith) (by linarith)]

/-- C3: for a sequence in `PING_PONG` mode with positive duration,
evaluation mirrors around the duration: `EvaluateAt(duration + x)` equals
`EvaluateAt(duration - x)` for `0 ≤ x ≤ duration`. -/
theorem pingpong_mirror [FloorRing α] (tr : Trig α) (ms : MotionSequence α)
    (x : α) (hm : ms.loop_mode = LoopMode.PING_PONG) (hd : 0 < ms.duration)
    (hx0 : 0 ≤ x) (hx1 : x ≤ ms.duration) :
    get_rotations_at_time tr ms (ms.duration + x) =
      get_rotations_at_time tr ms (ms.duration - x) := by
  refine get_rotations_time_congr tr ms _ _ ?_
  rw [hm]
  exact pingpong_remap hd hx0 hx1

/-- Witness for C3 at a concrete ping-pong sequence of duration 1. -/
theorem pingpong_mirror_witness :
    get_rotations_at_time trivTrig seqPing (seqPing.duration + 1/2) =
      get_rotations_at_time trivTrig seqPing (seqPing.duration - 1/2) :=
  pingpong_mirror trivTrig seqPing (1/2) rfl (by decide) (by norm_num)
    (by norm_num [seqPing, kfZero, kfOneA, MotionSequence.duration])

/-- The base of the running maximum bounds its result. -/
theorem le_foldl_max :
    ∀ (l : List (Keyframe α)) (b : α),
      b ≤ l.foldl (fun m kf => max m kf.time) b := by
  intro l
  induction l with
  | nil => intro b; exact le_rfl
  | cons k l ih =>
    intro b
    exact le_trans (le_max_left b k.time) (ih (max b k.time))

/-- Every listed keyframe's time bounds the running maximum from below. -/
theorem time_le_foldl_max :
    ∀ (l : List (Keyframe α)) (b : α) (k : Keyframe α), k ∈ l →
      k.time ≤ l.foldl (fun m kf => max m kf.time) b := by
  intro l
  induction l with
  | nil => intro b k hk; cases hk
  | cons c l ih =>
    intro b k hk
    rcases List.mem_cons.mp hk with hh | ht
    · subst hh
      exact le_trans (le_max_right b k.time) (le_foldl_max l (max b k.time))
    · exact ih (max b c.time) k ht

/-- Every keyframe's time is bounded by the sequence duration. -/
theorem mem_time_le_duration (ms : MotionSequence α) (k : Keyframe α)
    (hk : k ∈ ms.keyframes) : k.time ≤ ms.duration := by
  unfold MotionSequence.duration
  cases hms : ms.keyframes with
  | nil => rw [hms] at hk; cases hk
  | cons k0 rest =>
    rw [hms] at hk
    rcases List.mem_cons.mp hk with hh | ht
    · subst hh
      exact le_foldl_max rest k.time
    · exact time_le_foldl_max rest k0.time k ht

/-- The bracketing scan stops at the first keyframe whose time equals the
query time, provided all earlier keyframes are strictly earlier, and
returns it as both `prev` and `next`. -/
theorem scanBracket_tie :
    ∀ (l1 : List (Keyframe α)) (kf : Keyframe α) (l2 : List (Keyframe α))
      (p n : Keyframe α), (∀ k ∈ l1, k.time < kf.time) →
      scanBracket (l1 ++ kf :: l2) kf.time p n = (kf, kf) := by
  intro l1
  induction l1 with
  | nil =>
    intro kf l2 p n _
    show scanBracket (kf :: l2) kf.time p n = (kf, kf)
    simp [scanBracket]
  | cons c l1 ih =>
    intro kf l2 p n hlt
    have hc : c.time < kf.time := hlt c (List.mem_cons_self _ _)
    show scanBracket (c :: (l1 ++ kf :: l2)) kf.time p n = (kf, kf)
    simp only [scanBracket]
    rw [if_pos hc.le, if_neg (not_le.mpr hc)]
    exact ih kf l2 c n (fun k hk => hlt k (List.mem_cons_of_mem _ hk))

/-- Counterexample to C4: in `seqTie`, `kfOneB` is the last keyframe
inserted at time 1 via `add_keyframe`, yet lookup at exactly time 1 returns
the rotations of `kfOneA`, the first-inserted keyframe at that time — the
scan breaks at the first keyframe whose time reaches the query time. -/
theorem tie_break_last_inserted_false :
    get_rotations_at_time trivTrig seqTie 1 = kfOneA.rotations ∧
    get_rotations_at_time trivTrig seqTie 1 ≠ kfOneB.rotations := by
  constructor
  · rfl
  · decide

/-- C4 (amended): with keyframes sharing a time stamp, `EvaluateAt` queried
exactly at that time returns the rotations of the *first* keyframe in list
order at that time — with Python's stable sort, the first-inserted among
equal-time keyframes, not the last-inserted. -/
theorem tie_break_first_at_time [FloorRing α] (tr : Trig α)
    (ms : MotionSequence α) (l1 l2 : List (Keyframe α)) (kf : Keyframe α)
    (hm : ms.loop_mode = LoopMode.ONCE)
    (hk : ms.keyframes = l1 ++ kf :: l2)
    (hlt : ∀ k ∈ l1, k.time < kf.time)
    (hd : 0 < ms.duration) :
    get_rotations_at_time tr ms kf.time = kf.rotations := by
  have hle : kf.time ≤ ms.duration :=
    mem_time_le_duration ms kf
      (by rw [hk]; exact List.mem_append_right _ (List.mem_cons_self _ _))
  have hremap : remapTime ms.loop_mode kf.time ms.duration = kf.time := by
    rw [hm]
    exact min_eq_left hle
  unfold get_rotations_at_time
  cases hms : ms.keyframes with
  | nil =>
    rw [hms] at hk
    cases l1 <;> simp at hk
  | cons k0 rest =>
    simp only []
    rw [if_neg (not_le.mpr hd), hremap]
    have hsplit : k0 :: rest = l1 ++ kf :: l2 := by rw [← hms, hk]
    rw [hsplit, scanBracket_tie l1 kf l2 k0 (rest.getLastD k0) hlt]
    simp [interpolate]

/-- Witness for C4 (amended) at the concrete tied sequence. -/
theorem tie_break_first_at_time_witness :
    get_rotations_at_time trivTrig seqTie kfOneA.time = kfOneA.rotations :=
  tie_break_first_at_time trivTrig seqTie [] [kfOneB] kfOneA rfl rfl
    (by simp) (by decide)

/-- Counterexample to C5: the bounce easing leaves `[0, 1]`: with the real
trigonometric primitives, at `t = 5/8` its damped-sine branch evaluates to
`1 + 0.1 * sin(pi/2) = 1.1 > 1`. -/
theorem ease_bounce_exceeds_one :
    ease_bounce (⟨Real.cos, Real.sin, Real.pi⟩ : Trig ℝ) (5/8) = 11/10 ∧
    ¬ ease_bounce (⟨Real.cos, Real.sin, Real.pi⟩ : Trig ℝ) (5/8) ≤ 1 := by
  have hval : ease_bounce (⟨Real.cos, Real.sin, Real.pi⟩ : Trig ℝ) (5/8) = 11/10 := by
    unfold ease_bounce
    rw [if_neg (by norm_num), if_pos (by norm_num)]
    show 1 + 1/10 * Real.sin (((5:ℝ)/8 - 1/2) * Real.pi * 4) = 11/10
    have harg : ((5:ℝ)/8 - 1/2) * Real.pi * 4 = Real.pi / 2 := by ring
    rw [harg, Real.sin_pi_div_two]
    norm_num
  refine ⟨hval, ?_⟩
  rw [hval]
  norm_num

/-- C5 (amended): every easing function satisfies `f(0) = 0` and `f(1) = 1`;
`linear`, `easeIn`, `easeOut` and `easeInOut` map `[0,1]` into `[0,1]`; the
bounce easing maps `[0,1]` into `[0, 1.1]` (its damped-sine branch
deliberately overshoots 1 by up to 0.1). -/
theorem easing_bounds :
    (∀ t : ℝ, 0 ≤ t → t ≤ 1 →
      (0 ≤ ease_linear t ∧ ease_linear t ≤ 1) ∧
      (0 ≤ ease_in t ∧ ease_in t ≤ 1) ∧
      (0 ≤ ease_out t ∧ ease_out t ≤ 1) ∧
      (0 ≤ ease_in_out t ∧ ease_in_out t ≤ 1) ∧
      (0 ≤ ease_bounce (⟨Real.cos, Real.sin, Real.pi⟩ : Trig ℝ) t ∧
        ease_bounce (⟨Real.cos, Real.sin, Real.pi⟩ : Trig ℝ) t ≤ 11/10)) ∧
    (ease_linear (0:ℝ) = 0 ∧ ease_linear (1:ℝ) = 1 ∧
     ease_in (0:ℝ) = 0 ∧ ease_in (1:ℝ) = 1 ∧
     ease_out (0:ℝ) = 0 ∧ ease_out (1:ℝ) = 1 ∧
     ease_in_out (0:ℝ) = 0 ∧ ease_in_out (1:ℝ) = 1 ∧
     ease_bounce (⟨Real.cos, Real.sin, Real.pi⟩ : Trig ℝ) 0 = 0 ∧
     ease_bounce (⟨Real.cos, Real.sin, Real.pi⟩ : Trig ℝ) 1 = 1) := by
  constructor
  · intro t h0 h1
    refine ⟨⟨h0, h1⟩, ?_, ?_, ?_, ?_⟩
    · exact ⟨mul_nonneg h0 h0, mul_le_one₀ h1 h0 h1⟩
    · unfold ease_out
      constructor <;> nlinarith
    · unfold ease_in_out
      split_ifs with hb
      · constructor <;> nlinarith
      · constructor <;> nlinarith
    · unfold ease_bounce
      split_ifs with hb1 hb2
      · constructor <;> nlinarith
      · show 0 ≤ 1 + 1/10 * Real.sin ((t - 1/2) * Real.pi * 4) ∧
          1 + 1/10 * Real.sin ((t - 1/2) * Real.pi * 4) ≤ 11/10
        have hs1 := Real.neg_one_le_sin ((t - 1/2) * Real.pi * 4)
        have hs2 := Real.sin_le_one ((t - 1/2) * Real.pi * 4)
        constructor <;> nlinarith
      · norm_num
  · refine ⟨rfl, rfl, ?_, ?_, ?_, ?_, ?_, ?_, ?_, ?_⟩
    · norm_num [ease_in]
    · norm_num [ease_in]
    · norm_num [ease_out]
    · norm_num [ease_out]
    · norm_num [ease_in_out]
    · norm_num [ease_in_out]
    · norm_num [ease_bounce]
    · norm_num [ease_bounce]

/-- One sampled frame per listed time: the i-th output is the
`get_all_joint_positions` snapshot of the player state after scrubbing
through the first `i+1` times. -/
theorem runFrames_spec [FloorRing α] (tr : Trig α) :
    ∀ (ts : List α) (p : MotionPlayer α),
      (runFrames tr p ts).length = ts.length ∧
      ∀ i, i < ts.length →
        (runFrames tr p ts)[i]? =
          some (get_all_joint_positions
            (((ts.take (i+1)).foldl (fun q t => q.set_time tr t) p).skeleton)) := by
  intro ts
  induction ts with
  | nil =>
    intro p
    exact ⟨rfl, fun i hi => absurd hi (Nat.not_lt_zero i)⟩
  | cons t ts ih =>
    intro p
    constructor
    · simp [runFrames, (ih (p.set_time tr t)).1]
    · intro i hi
      cases i with
      | zero =>
        simp [runFrames, List.take_succ_cons, List.take_zero,
          List.foldl_cons, List.foldl_nil]
      | succ n =>
        have hn : n < ts.length := Nat.lt_of_succ_lt_succ hi
        have hrec := (ih (p.set_time tr t)).2 n hn
        simpa [runFrames, List.take_succ_cons, List.foldl_cons,
          List.getElem?_cons_succ] using hrec

/-- C8: the batch sampler produces exactly `floor(duration * fps) + 1`
frames; the i-th frame is the `GetAllJointPositions` snapshot taken after
driving the player's `SetTime` through the sample times up to `i / fps`. -/
theorem generate_motion_frames_spec [FloorRing α] (tr : Trig α)
    (skeleton : Skeleton α) (motion : MotionSequence α) (fps : α)
    (hf : 0 < fps) (hd : 0 ≤ motion.duration) :
    (generate_motion_frames tr skeleton motion fps).length =
      (⌊motion.duration * fps⌋).toNat + 1 ∧
    ∀ i, i < (⌊motion.duration * fps⌋).toNat + 1 →
      (generate_motion_frames tr skeleton motion fps)[i]? =
        some (get_all_joint_positions
          (((List.range (i+1)).foldl
            (fun q (j : ℕ) => MotionPlayer.set_time tr q ((j : α) / fps))
            ((MotionPlayer.init skeleton).play motion 0 0)).skeleton)) := by
  have hprod : 0 ≤ motion.duration * fps := mul_nonneg hd hf.le
  have hfc : (pyint (motion.duration * fps) + 1).toNat =
      (⌊motion.duration * fps⌋).toNat + 1 := by
    rw [pyint_of_nonneg hprod]
    have h0 : 0 ≤ ⌊motion.duration * fps⌋ := Int.floor_nonneg.mpr hprod
    omega
  simp only [generate_motion_frames]
  rw [hfc]
  constructor
  · rw [(runFrames_spec tr _ _).1, List.length_map, List.length_range]
  · intro i hi
    rw [(runFrames_spec tr _ _).2 i (by
      rw [List.length_map, List.length_range]; exact hi)]
    have htake : ((List.range ((⌊motion.duration * fps⌋).toNat + 1)).map
        (fun j : ℕ => (j : α) * (1 / fps))).take (i+1) =
        (List.range (i+1)).map (fun j : ℕ => (j : α) * (1 / fps)) := by
      rw [← List.map_take, List.take_range, Nat.min_eq_left hi]
    rw [htake, List.foldl_map]
    have hfun : (fun (q : MotionPlayer α) (j : ℕ) =>
        MotionPlayer.set_time tr q ((j : α) * (1 / fps))) =
        (fun (q : MotionPlayer α) (j : ℕ) =>
          MotionPlayer.set_time tr q ((j : α) / fps)) := by
      funext q j
      rw [mul_one_div]
    rw [hfun]

/-- Witness for C8 at a concrete skeleton, sequence and frame rate. -/
theorem generate_motion_frames_spec_witness :
    (generate_motion_frames trivTrig sampleSkeleton seqOnce 2).length =
      (⌊(seqOnce.duration * 2 : ℚ)⌋).toNat + 1 :=
  (generate_motion_frames_spec trivTrig sampleSkeleton seqOnce 2
    (by norm_num)
    (by norm_num [seqOnce, kfZero, kfOneA, MotionSequence.duration])).1

/-- Witness for C5 (amended) at `t = 1/2`. -/
theorem easing_bounds_witness :
    (0 ≤ ease_linear (1/2 : ℝ) ∧ ease_linear (1/2 : ℝ) ≤ 1) ∧
    (0 ≤ ease_in (1/2 : ℝ) ∧ ease_in (1/2 : ℝ) ≤ 1) ∧
    (0 ≤ ease_out (1/2 : ℝ) ∧ ease_out (1/2 : ℝ) ≤ 1) ∧
    (0 ≤ ease_in_out (1/2 : ℝ) ∧ ease_in_out (1/2 : ℝ) ≤ 1) ∧
    (0 ≤ ease_bounce (⟨Real.cos, Real.sin, Real.pi⟩ : Trig ℝ) (1/2 : ℝ) ∧
      ease_bounce (⟨Real.cos, Real.sin, Real.pi⟩ : Trig ℝ) (1/2 : ℝ) ≤ 11/10) :=
  easing_bounds.1 (1/2) (by norm_num) (by norm_num)

